import Mathlib

/-!
Verification of the memErase secure-erase core (src/main.cpp, class SecureEraser).

The development is a shallow embedding of the wipe engine:

* `generatePatterns` mirrors `SecureEraser::generatePatterns`.  The process-wide
  `std::mt19937 rng` member is modelled by an abstract stream `rs : Nat → Nat` of
  successive `dist(rng)` outputs together with an explicit draw counter that is
  threaded through the calls (the C++ member object advances exactly this way).
  A pass buffer is modelled as its length together with the byte at each index.
* `secureEraseWith` mirrors `SecureEraser::secureErase`.  The operating-system
  facing calls (open, the size ioctl, lseek, write) are abstracted into a
  `Device` oracle; the POSIX and Win32 branches of the source have the same
  shape and are embedded once.  The inner `while` loop becomes the fuelled
  `writeLoop` (the C loop does not terminate when the writer keeps returning 0,
  so the embedding returns `none` when fuel runs out).  The source closes the
  handle at each failure site inside the loop body before returning `false`;
  the embedding counts those closes in `runPasses` when it converts a failed
  pass into a failed run.  Floating-point progress percentages are modelled
  exactly over `ℚ` (the integer inputs are far below 2^53, so the `double`
  computation of the source is exact).  The verification step of the source
  opens and closes its own separate read handle and never changes the result
  of the run, so it does not appear in the engine state modelled here.
* `listDevicesLinux` / `listDevicesWin` mirror the two enumeration loops of
  `SecureEraser::listDevices`.  A field of the C `DeviceInfo` that a code path
  leaves unassigned (indeterminate) is modelled as `none`.
* `mainWipe` mirrors the tail of `main` (src/main.cpp lines 534-561): the
  mounted-device refusal, the interactive confirmation, and the engine call.
-/

set_option maxRecDepth 4000

namespace MemErase

/-- Fixed block size of the eraser: `BLOCK_SIZE = 1024 * 1024` (1 MiB). -/
def BLOCK_SIZE : Nat := 1024 * 1024

/-- The wipe scheme tags (`enum class WipePattern`). -/
inductive WipePattern where
  | ZEROS
  | ONES
  | RANDOM
  | DOD_3PASS
  | GUTMANN_35
deriving DecidableEq

/-- One fill buffer (`std::vector<uint8_t>`): its length and the byte at each
index.  Indices at or beyond `len` are irrelevant padding of the model. -/
structure PassBuffer where
  len : Nat
  data : Nat → Nat

/-- `std::vector<uint8_t>(BLOCK_SIZE, c)`: a block-sized buffer holding `c`
at every index. -/
def constBuffer (c : Nat) : PassBuffer :=
  { len := BLOCK_SIZE, data := fun _ => c }

/-- A block-sized buffer filled by `BLOCK_SIZE` successive draws
`dist(rng)` from the RNG stream, starting at draw index `st`.  Each draw of
`std::uniform_int_distribution<uint8_t>(0,255)` is a byte, hence the `% 256`. -/
def randomBuffer (rs : Nat → Nat) (st : Nat) : PassBuffer :=
  { len := BLOCK_SIZE, data := fun i => rs (st + i) % 256 }

/-- `SecureEraser::generatePatterns` (src/main.cpp lines 153-219).  Takes the
RNG stream `rs` and the current draw counter `st` (the state of the `mt19937`
member) and returns the ordered pass buffers together with the new counter. -/
def generatePatterns (p : WipePattern) (rs : Nat → Nat) (st : Nat) :
    List PassBuffer × Nat :=
  match p with
  | .ZEROS => ([constBuffer 0x00], st)
  | .ONES => ([constBuffer 0xFF], st)
  | .RANDOM => ([randomBuffer rs st], st + BLOCK_SIZE)
  | .DOD_3PASS =>
      ([constBuffer 0x00, constBuffer 0xFF, randomBuffer rs st], st + BLOCK_SIZE)
  | .GUTMANN_35 =>
      ([randomBuffer rs st, randomBuffer rs (st + BLOCK_SIZE),
        randomBuffer rs (st + 2 * BLOCK_SIZE), randomBuffer rs (st + 3 * BLOCK_SIZE),
        constBuffer 0x55, constBuffer 0xAA, constBuffer 0x92,
        constBuffer 0x49, constBuffer 0x24], st + 4 * BLOCK_SIZE)

/-- Documented number of passes of each scheme. -/
def passCount : WipePattern → Nat
  | .ZEROS => 1
  | .ONES => 1
  | .RANDOM => 1
  | .DOD_3PASS => 3
  | .GUTMANN_35 => 9

/-- Number of random pass buffers of each scheme (each consumes
`BLOCK_SIZE` RNG draws). -/
def randomDraws : WipePattern → Nat
  | .ZEROS => 0
  | .ONES => 0
  | .RANDOM => 1
  | .DOD_3PASS => 1
  | .GUTMANN_35 => 4

/-- Oracle for the device-facing system calls made by `secureErase`:
whether the read-write open succeeds, whether the capacity query succeeds and
its value, whether the seek of each pass succeeds, and the outcome of the
`n`-th write call of the run given its requested size (`none` models a failing
call, i.e. a negative `write` return or a failing `WriteFile`; `some k` models
a call that reports `k` bytes transferred).  The descriptor flag `mounted`
travels with the oracle so that the caller-side check of `main` can be
modelled over the same data. -/
structure Device where
  mounted : Bool
  openOk : Bool
  sizeOk : Bool
  size : Nat
  seekOk : Nat → Bool
  write : Nat → Nat → Option Nat

/-- Observable outcome of one engine run: the returned boolean, how many times
the engine opened and closed its device handle, the completed write calls as
(requested, reported) pairs in order, and the percentages passed to the
progress callback in order. -/
structure RunResult where
  success : Bool
  opened : Nat
  closes : Nat
  writes : List (Nat × Nat)
  progress : List ℚ
deriving DecidableEq

/-- The percentage handed to the progress callback:
`(pass * totalBlocks + blockCount) / (patterns.size() * totalBlocks) * 100.0`
(src/main.cpp lines 327-328), computed exactly over `ℚ`. -/
def progressValue (passIdx passCnt totalBlocks blockCount : Nat) : ℚ :=
  ((passIdx * totalBlocks + blockCount : Nat) : ℚ)
    / ((passCnt * totalBlocks : Nat) : ℚ) * 100

/-- The inner `while (bytesWritten < deviceSize)` loop of one pass
(src/main.cpp lines 298-338).  Arguments after the colon: remaining fuel, the
global index of the next write call, `bytesWritten`, `blockCount`, and the
accumulated write and progress logs.  Returns `none` when fuel runs out,
otherwise `some (ok, nextCallIdx, writes, progress)` where `ok = false` means
the pass aborted on a failed write call (the source closes the handle and
returns `false` there; the caller accounts for that close). -/
def writeLoop (dev : Device) (B passIdx passCnt totalBlocks : Nat) :
    Nat → Nat → Nat → Nat → List (Nat × Nat) → List ℚ →
    Option (Bool × Nat × List (Nat × Nat) × List ℚ)
  | 0, _, _, _, _, _ => none
  | fuel + 1, callIdx, bytesWritten, blockCount, wacc, pacc =>
    if bytesWritten < dev.size then
      let writeSize := min B (dev.size - bytesWritten)
      match dev.write callIdx writeSize with
      | none => some (false, callIdx + 1, wacc, pacc)
      | some written =>
        let blockCount' := blockCount + 1
        let pacc' :=
          if blockCount' % 100 = 0 then
            pacc ++ [progressValue passIdx passCnt totalBlocks blockCount']
          else pacc
        writeLoop dev B passIdx passCnt totalBlocks fuel (callIdx + 1)
          (bytesWritten + written) blockCount' (wacc ++ [(writeSize, written)]) pacc'
    else
      some (true, callIdx, wacc, pacc)

/-- The outer `for (pass = 0; pass < patterns.size(); ++pass)` loop
(src/main.cpp lines 275-349), recursing on the number of passes still to run.
Each pass first seeks to offset 0 (abort closing the handle on failure), then
runs `writeLoop` with `bytesWritten = blockCount = 0`.  Returns
`some (ok, closes, nextCallIdx, writes, progress)`; `closes` counts the handle
closes performed on the failure exits inside the loop. -/
def runPasses (dev : Device) (B passCnt totalBlocks fuel : Nat) :
    Nat → Nat → List (Nat × Nat) → List ℚ →
    Option (Bool × Nat × Nat × List (Nat × Nat) × List ℚ)
  | 0, callIdx, wacc, pacc => some (true, 0, callIdx, wacc, pacc)
  | remaining + 1, callIdx, wacc, pacc =>
    let passIdx := passCnt - (remaining + 1)
    if dev.seekOk passIdx then
      match writeLoop dev B passIdx passCnt totalBlocks fuel callIdx 0 0 wacc pacc with
      | none => none
      | some (ok, callIdx', wacc', pacc') =>
        if ok then
          runPasses dev B passCnt totalBlocks fuel remaining callIdx' wacc' pacc'
        else
          some (false, 1, callIdx', wacc', pacc')
    else
      some (false, 1, callIdx, wacc, pacc)

/-- `SecureEraser::secureErase` (src/main.cpp lines 222-359), with the block
size as an explicit parameter (the source uses the constant `BLOCK_SIZE`).
Control flow of the source: open the device read-write (return `false` on
failure), query the size (close and return `false` on failure), generate the
patterns, compute `totalBlocks = (deviceSize + BLOCK_SIZE - 1) / BLOCK_SIZE`,
run the passes, close the handle, and return `true` on completion. -/
def secureEraseWith (B : Nat) (dev : Device) (p : WipePattern)
    (rs : Nat → Nat) (st fuel : Nat) : Option RunResult :=
  if dev.openOk = false then
    some { success := false, opened := 0, closes := 0, writes := [], progress := [] }
  else if dev.sizeOk = false then
    some { success := false, opened := 1, closes := 1, writes := [], progress := [] }
  else
    let patterns := (generatePatterns p rs st).fst
    let totalBlocks := (dev.size + B - 1) / B
    match runPasses dev B patterns.length totalBlocks fuel patterns.length 0 [] [] with
    | none => none
    | some (ok, closes, _, ws, ps) =>
      if ok then
        some { success := true, opened := 1, closes := closes + 1, writes := ws, progress := ps }
      else
        some { success := false, opened := 1, closes := closes, writes := ws, progress := ps }

/-- The engine as compiled: `secureEraseWith` at the source's block size. -/
def secureErase (dev : Device) (p : WipePattern) (rs : Nat → Nat) (st fuel : Nat) :
    Option RunResult :=
  secureEraseWith BLOCK_SIZE dev p rs st fuel

/-- The tail of `main` (src/main.cpp lines 534-561) once the descriptor of the
requested device has been found: refuse mounted devices with exit code 1
before anything is opened, ask for confirmation (exit code 0 on refusal), and
otherwise run the engine (exit code 1 when it returns `false`).  The second
component records the engine run when one happened (`none` = the engine was
never invoked). -/
def mainWipe (dev : Device) (p : WipePattern) (confirmed : Bool)
    (rs : Nat → Nat) (st fuel : Nat) : Option (Nat × Option RunResult) :=
  if dev.mounted then
    some (1, none)
  else if confirmed = false then
    some (0, none)
  else
    match secureErase dev p rs st fuel with
    | none => none
    | some r => some ((if r.success then 0 else 1), some r)

/-- Requested sizes of the write calls of one pass over `S` bytes with block
size `B`, as issued by the loop of the source when every write is complete:
`min B remaining` per call until the remainder is exhausted (fuelled, since a
block size of 0 would never terminate). -/
def chunkSizesAux (B : Nat) : Nat → Nat → List Nat
  | 0, _ => []
  | fuel + 1, S =>
    if S = 0 then [] else min B S :: chunkSizesAux B fuel (S - min B S)

/-- The per-pass write-call sizes for a device of `S` bytes and block size
`B > 0` (fuel `S` always suffices then). -/
def chunkSizes (B S : Nat) : List Nat :=
  chunkSizesAux B S S

/-- The percentages reported while the in-pass block counter runs from
`b0 + 1` up to `b0 + n`: one callback per counter value divisible by 100
(src/main.cpp line 326). -/
def progressSlice (passIdx passCnt totalBlocks : Nat) : Nat → Nat → List ℚ
  | _, 0 => []
  | b0, n + 1 =>
    (if (b0 + 1) % 100 = 0 then
        [progressValue passIdx passCnt totalBlocks (b0 + 1)]
      else []) ++ progressSlice passIdx passCnt totalBlocks (b0 + 1) n

/-- An ideal device of `S` bytes: everything succeeds and every write call
transfers exactly the requested number of bytes. -/
def fullDev (S : Nat) : Device :=
  { mounted := false, openOk := true, sizeOk := true, size := S,
    seekOk := fun _ => true, write := fun _ req => some req }

/-- A 2 MiB device whose very first write call is short: it reports
`(req + 1) / 2` bytes (524288 instead of the requested 1048576); every later
call is complete. -/
def shortDevice : Device :=
  { mounted := false, openOk := true, sizeOk := true, size := 2 * BLOCK_SIZE,
    seekOk := fun _ => true,
    write := fun i req => some (if i = 0 then (req + 1) / 2 else req) }

/-- A mounted but otherwise perfectly healthy 1 MiB device. -/
def mountedDevice : Device :=
  { mounted := true, openOk := true, sizeOk := true, size := BLOCK_SIZE,
    seekOk := fun _ => true, write := fun _ req => some req }

/-- The constant-zero RNG stream, used for concrete runs. -/
def rsZ : Nat → Nat := fun _ => 0

/-- `GetDriveTypeA` outcomes that matter to the Windows enumeration loop. -/
inductive DriveType where
  | removable
  | fixedDisk
  | other
deriving DecidableEq

/-- Oracle for one Windows drive letter probed by `listDevices`
(src/main.cpp lines 55-85): the drive type, whether `CreateFileA` succeeds,
whether the `IOCTL_DISK_GET_DRIVE_GEOMETRY_EX` `DeviceIoControl` succeeds and
the size it would report, and the bit of `GetLogicalDrives` for the letter. -/
structure WinDrive where
  driveType : DriveType
  openOk : Bool
  geometryOk : Bool
  geomSize : Nat
  mountedBit : Bool
deriving DecidableEq

/-- Oracle for one `/sys/block` entry probed by the Linux loop of
`listDevices` (src/main.cpp lines 92-126): whether `d_name[0] == '.'`,
whether `stat` succeeds with `S_ISBLK`, whether the `O_RDONLY` open succeeds,
whether the `BLKGETSIZE64` ioctl succeeds and the size it would report, the
integer extracted from the `removable` sysfs file (0 when the read fails),
and the verdict of `isDeviceMounted`. -/
structure LinuxEntry where
  dotName : Bool
  isBlk : Bool
  openOk : Bool
  ioctlOk : Bool
  blkSize : Nat
  removableVal : Nat
  mounted : Bool
deriving DecidableEq

/-- One entry of the list built by `listDevices`, with each field of the C
`DeviceInfo` struct recorded as `none` when the code path never assigned it
(the C value is then indeterminate). -/
structure DeviceScan where
  size : Option Nat
  removable : Option Bool
  mounted : Option Bool
deriving DecidableEq

/-- The Windows branch of `SecureEraser::listDevices` (src/main.cpp lines
55-86): a drive is considered when its type is removable or fixed;
`isRemovable` is assigned before the open; when the open fails the drive is
skipped entirely; `size` is assigned only when the geometry ioctl succeeds,
and `isMounted` is assigned unconditionally before the push. -/
def listDevicesWin (drives : List WinDrive) : List DeviceScan :=
  drives.filterMap fun d =>
    if d.driveType = DriveType.removable ∨ d.driveType = DriveType.fixedDisk then
      if d.openOk then
        some { size := if d.geometryOk then some d.geomSize else none,
               removable := some (d.driveType = DriveType.removable : Bool),
               mounted := some d.mountedBit }
      else none
    else none

/-- The Linux branch of `SecureEraser::listDevices` (src/main.cpp lines
89-129): dot entries are skipped; a block device is pushed unconditionally,
with `size` assigned only when both the read-only open and the
`BLKGETSIZE64` ioctl succeed, `isRemovable` from the sysfs value, and
`isMounted` from the mount-table scan. -/
def listDevicesLinux (entries : List LinuxEntry) : List DeviceScan :=
  entries.filterMap fun e =>
    if e.dotName then none
    else if e.isBlk then
      some { size := if e.openOk ∧ e.ioctlOk then some e.blkSize else none,
             removable := some (e.removableVal = 1 : Bool),
             mounted := some e.mounted }
    else none

/-- A fixed Windows drive that opens fine but whose geometry query fails. -/
def w0 : WinDrive :=
  { driveType := DriveType.fixedDisk, openOk := true, geometryOk := false,
    geomSize := 7, mountedBit := true }

/-- A Linux block device whose read-only open (hence also the size ioctl)
fails. -/
def e0 : LinuxEntry :=
  { dotName := false, isBlk := true, openOk := false, ioctlOk := false,
    blkSize := 0, removableVal := 1, mounted := false }

/-- Concrete outcome of a clean single-pass run over a one-block device,
used to instantiate the handle-discipline theorem. -/
def r0 : RunResult :=
  { success := true, opened := 1, closes := 1,
    writes := [(1048576, 1048576)], progress := [] }

/-- A demonstration RNG stream: draw number `i` yields `i / BLOCK_SIZE`, so
the bytes of consecutively generated random buffers differ. -/
def rsDemo : Nat → Nat := fun i => i / BLOCK_SIZE

/- ## Helper lemmas -/

theorem gen_length (p : WipePattern) (rs : Nat → Nat) (st : Nat) :
    (generatePatterns p rs st).fst.length = passCount p := by
  cases p <;> rfl

theorem chunkSizesAux_stable (B : Nat) (hB : 0 < B) :
    ∀ fuel S, S ≤ fuel → chunkSizesAux B fuel S = chunkSizesAux B S S := by
  intro fuel
  induction fuel using Nat.strong_induction_on with
  | _ fuel ih =>
    intro S hS
    cases fuel with
    | zero =>
      have h0 : S = 0 := Nat.le_zero.mp hS
      subst h0; rfl
    | succ f =>
      cases S with
      | zero => rfl
      | succ s =>
        have hmin : 1 ≤ min B (s + 1) := le_min hB (Nat.succ_pos s)
        show (if s + 1 = 0 then [] else
            min B (s + 1) :: chunkSizesAux B f (s + 1 - min B (s + 1)))
          = (if s + 1 = 0 then [] else
            min B (s + 1) :: chunkSizesAux B s (s + 1 - min B (s + 1)))
        rw [if_neg (Nat.succ_ne_zero s), if_neg (Nat.succ_ne_zero s)]
        have hr : s + 1 - min B (s + 1) ≤ s := by omega
        have h1 := ih f (by omega) (s + 1 - min B (s + 1)) (by omega)
        have h2 := ih s (by omega) (s + 1 - min B (s + 1)) hr
        rw [h1, h2]

theorem chunkSizes_eq (B : Nat) (hB : 0 < B) (S : Nat) :
    chunkSizes B S =
      if S = 0 then [] else min B S :: chunkSizes B (S - min B S) := by
  unfold chunkSizes
  cases S with
  | zero => rfl
  | succ s =>
    have hmin : 1 ≤ min B (s + 1) := le_min hB (Nat.succ_pos s)
    show (if s + 1 = 0 then [] else
        min B (s + 1) :: chunkSizesAux B s (s + 1 - min B (s + 1)))
      = if s + 1 = 0 then [] else
        min B (s + 1) ::
          chunkSizesAux B (s + 1 - min B (s + 1)) (s + 1 - min B (s + 1))
    rw [if_neg (Nat.succ_ne_zero s), if_neg (Nat.succ_ne_zero s)]
    rw [chunkSizesAux_stable B hB s (s + 1 - min B (s + 1)) (by omega)]

theorem chunkSizes_length (B : Nat) (hB : 0 < B) :
    ∀ S, (chunkSizes B S).length = (S + B - 1) / B := by
  intro S
  induction S using Nat.strong_induction_on with
  | _ S ih =>
    rw [chunkSizes_eq B hB S]
    by_cases h0 : S = 0
    · subst h0
      simp only [if_pos rfl, List.length_nil]
      exact (Nat.div_eq_of_lt (by omega)).symm
    · rw [if_neg h0, List.length_cons]
      have hmin : 1 ≤ min B S := le_min hB (by omega)
      have hms : min B S ≤ S := Nat.min_le_right _ _
      rw [ih (S - min B S) (by omega)]
      rcases le_or_lt B S with hBS | hSB
      · rw [Nat.min_eq_left hBS]
        have e1 : S - B + B - 1 = S - 1 := by omega
        have e2 : S + B - 1 = (S - 1) + B := by omega
        rw [e1, e2, Nat.add_div_right _ hB]
      · rw [Nat.min_eq_right (le_of_lt hSB), Nat.sub_self]
        have e1 : (0 + B - 1) / B = 0 := Nat.div_eq_of_lt (by omega)
        have e2 : S + B - 1 = (S - 1) + B := by omega
        rw [e1, e2, Nat.add_div_right _ hB, Nat.div_eq_of_lt (by omega)]

theorem chunkSizes_sum (B : Nat) (hB : 0 < B) :
    ∀ S, (chunkSizes B S).sum = S := by
  intro S
  induction S using Nat.strong_induction_on with
  | _ S ih =>
    rw [chunkSizes_eq B hB S]
    by_cases h0 : S = 0
    · subst h0; simp
    · rw [if_neg h0, List.sum_cons]
      have hmin : 1 ≤ min B S := le_min hB (by omega)
      have hms : min B S ≤ S := Nat.min_le_right _ _
      rw [ih (S - min B S) (by omega)]
      omega

theorem chunkSizes_ne_nil (B : Nat) (hB : 0 < B) (S : Nat) (hS : 0 < S) :
    chunkSizes B S ≠ [] := by
  rw [chunkSizes_eq B hB S, if_neg (by omega)]
  exact List.cons_ne_nil _ _

theorem chunkSizes_dropLast (B : Nat) (hB : 0 < B) :
    ∀ S, (chunkSizes B S).dropLast =
      List.replicate ((chunkSizes B S).length - 1) B := by
  intro S
  induction S using Nat.strong_induction_on with
  | _ S ih =>
    by_cases h0 : S = 0
    · subst h0; rfl
    · rw [chunkSizes_eq B hB S, if_neg h0]
      have hmin : 1 ≤ min B S := le_min hB (by omega)
      have hms : min B S ≤ S := Nat.min_le_right _ _
      rcases le_or_lt S B with hSB | hBS
      · have h0 : S - min B S = 0 := by omega
        rw [h0, min_eq_right hSB]
        rfl
      · have hminB : min B S = B := min_eq_left (le_of_lt hBS)
        rw [hminB]
        have hpos : 0 < S - B := by omega
        have hne : chunkSizes B (S - B) ≠ [] :=
          chunkSizes_ne_nil B hB _ hpos
        rw [List.dropLast_cons_of_ne_nil hne, ih (S - B) (by omega)]
        have hlen : 0 < (chunkSizes B (S - B)).length :=
          List.length_pos.mpr hne
        rw [List.length_cons]
        rw [show (chunkSizes B (S - B)).length + 1 - 1
            = ((chunkSizes B (S - B)).length - 1) + 1 from by omega]
        rw [List.replicate_succ]

theorem chunkSizes_getLast (B : Nat) (hB : 0 < B) :
    ∀ S, 0 < S → (chunkSizes B S).getLast? =
      some (if S % B = 0 then B else S % B) := by
  intro S
  induction S using Nat.strong_induction_on with
  | _ S ih =>
    intro hS
    rw [chunkSizes_eq B hB S, if_neg (by omega)]
    have hmin : 1 ≤ min B S := le_min hB (by omega)
    have hms : min B S ≤ S := Nat.min_le_right _ _
    rcases le_or_lt S B with hSB | hBS
    · have h0 : S - min B S = 0 := by omega
      rw [h0, min_eq_right hSB]
      show some S = some (if S % B = 0 then B else S % B)
      rcases eq_or_lt_of_le hSB with hEq | hLt
      · rw [hEq]; simp
      · rw [Nat.mod_eq_of_lt hLt, if_neg (by omega)]
    · have hminB : min B S = B := min_eq_left (le_of_lt hBS)
      rw [hminB]
      have hpos : 0 < S - B := by omega
      have hne : chunkSizes B (S - B) ≠ [] :=
        chunkSizes_ne_nil B hB _ hpos
      obtain ⟨x, xs, hxs⟩ := List.exists_cons_of_ne_nil hne
      rw [hxs, List.getLast?_cons_cons, ← hxs, ih (S - B) (by omega) hpos]
      have hmod := Nat.add_mod_right (S - B) B
      rw [show S - B + B = S from by omega] at hmod
      rw [← hmod]

theorem progressSlice_split (p c t : Nat) :
    ∀ m b0 n, progressSlice p c t b0 (m + n)
      = progressSlice p c t b0 m ++ progressSlice p c t (b0 + m) n := by
  intro m
  induction m with
  | zero => intro b0 n; simp [progressSlice]
  | succ m ih =>
    intro b0 n
    rw [show m + 1 + n = (m + n) + 1 from by omega]
    show (if (b0 + 1) % 100 = 0 then _ else _) ++ progressSlice p c t (b0 + 1) (m + n)
      = ((if (b0 + 1) % 100 = 0 then _ else _) ++ progressSlice p c t (b0 + 1) m)
        ++ progressSlice p c t (b0 + (m + 1)) n
    rw [ih (b0 + 1) n, List.append_assoc,
      show b0 + 1 + m = b0 + (m + 1) from by omega]

theorem progressSlice_nil (p c t : Nat) :
    ∀ n b0, (∀ j, b0 < j → j ≤ b0 + n → j % 100 ≠ 0) →
      progressSlice p c t b0 n = [] := by
  intro n
  induction n with
  | zero => intro b0 _; rfl
  | succ n ih =>
    intro b0 h
    show (if (b0 + 1) % 100 = 0 then _ else _) ++ progressSlice p c t (b0 + 1) n = []
    rw [if_neg (h (b0 + 1) (by omega) (by omega)), List.nil_append]
    exact ih (b0 + 1) (fun j h1 h2 => h j (by omega) (by omega))

theorem chunkSizes_take_sum (B : Nat) (hB : 0 < B) :
    ∀ S k, ((chunkSizes B S).take k).sum ≤ S := by
  intro S
  induction S using Nat.strong_induction_on with
  | _ S ih =>
    intro k
    by_cases h0 : S = 0
    · subst h0
      rw [chunkSizes_eq B hB 0, if_pos rfl]
      simp
    · rw [chunkSizes_eq B hB S, if_neg h0]
      have hmin : 1 ≤ min B S := le_min hB (by omega)
      have hms : min B S ≤ S := Nat.min_le_right _ _
      cases k with
      | zero => simp
      | succ k' =>
        rw [List.take_succ_cons, List.sum_cons]
        have := ih (S - min B S) (by omega) k'
        omega

theorem writeLoop_allFull (dev : Device) (S B passIdx passCnt totalBlocks : Nat)
    (hB : 0 < B) (hsize : dev.size = S)
    (hw : ∀ i req, dev.write i req = some req) :
    ∀ fuel bw, S - bw < fuel → ∀ callIdx blockCount wacc pacc,
      writeLoop dev B passIdx passCnt totalBlocks fuel
          callIdx bw blockCount wacc pacc
        = some (true, callIdx + (chunkSizes B (S - bw)).length,
            wacc ++ (chunkSizes B (S - bw)).map (fun w => (w, w)),
            pacc ++ progressSlice passIdx passCnt totalBlocks blockCount
              (chunkSizes B (S - bw)).length) := by
  intro fuel
  induction fuel with
  | zero => intro bw h; omega
  | succ fuel ih =>
    intro bw hbw callIdx blockCount wacc pacc
    by_cases hlt : bw < S
    · have hne0 : S - bw ≠ 0 := by omega
      have hmin1 : 1 ≤ min B (S - bw) := le_min hB (by omega)
      have hminle : min B (S - bw) ≤ S - bw := Nat.min_le_right _ _
      have hstep : S - (bw + min B (S - bw)) = S - bw - min B (S - bw) := by
        omega
      have hCk : chunkSizes B (S - bw)
          = min B (S - bw) :: chunkSizes B (S - bw - min B (S - bw)) := by
        rw [chunkSizes_eq B hB (S - bw), if_neg hne0]
      simp only [writeLoop, hsize, hw, hlt, if_true]
      rw [ih (bw + min B (S - bw)) (by omega)]
      rw [hstep, hCk]
      by_cases hc : (blockCount + 1) % 100 = 0 <;>
        simp [hc, progressSlice, List.append_assoc] <;>
        omega
    · have h0 : S - bw = 0 := by omega
      rw [h0]
      simp [writeLoop, hsize, hlt, chunkSizes, chunkSizesAux, progressSlice]

theorem runPasses_allFull (dev : Device) (S B passCnt totalBlocks fuel : Nat)
    (hB : 0 < B) (hsize : dev.size = S)
    (hseek : ∀ i, dev.seekOk i = true)
    (hw : ∀ i req, dev.write i req = some req)
    (hf : S < fuel) :
    ∀ remaining, remaining ≤ passCnt → ∀ callIdx wacc pacc,
      runPasses dev B passCnt totalBlocks fuel remaining callIdx wacc pacc
        = some (true, 0,
            callIdx + remaining * (chunkSizes B S).length,
            wacc ++ (List.replicate remaining
              ((chunkSizes B S).map (fun w => (w, w)))).flatten,
            pacc ++ ((List.range remaining).map (fun k =>
              progressSlice (passCnt - remaining + k) passCnt totalBlocks 0
                (chunkSizes B S).length)).flatten) := by
  intro remaining
  induction remaining with
  | zero => intro _ callIdx wacc pacc; simp [runPasses]
  | succ rem ih =>
    intro hle callIdx wacc pacc
    have hwl := writeLoop_allFull dev S B (passCnt - (rem + 1)) passCnt
      totalBlocks hB hsize hw fuel 0 (by omega) callIdx 0 wacc pacc
    rw [Nat.sub_zero] at hwl
    have hone : runPasses dev B passCnt totalBlocks fuel (rem + 1) callIdx wacc pacc
        = runPasses dev B passCnt totalBlocks fuel rem
            (callIdx + (chunkSizes B S).length)
            (wacc ++ (chunkSizes B S).map (fun w => (w, w)))
            (pacc ++ progressSlice (passCnt - (rem + 1)) passCnt totalBlocks 0
              (chunkSizes B S).length) := by
      simp [runPasses, hseek, hwl]
    rw [hone, ih (by omega)]
    have hfun : ((fun k => progressSlice (passCnt - (rem + 1) + k) passCnt
          totalBlocks 0 (chunkSizes B S).length) ∘ Nat.succ)
        = fun k => progressSlice (passCnt - rem + k) passCnt totalBlocks 0
          (chunkSizes B S).length := by
      funext k
      show progressSlice (passCnt - (rem + 1) + (k + 1)) passCnt totalBlocks 0
          (chunkSizes B S).length = _
      rw [show passCnt - (rem + 1) + (k + 1) = passCnt - rem + k from by omega]
    have hA : callIdx + (rem + 1) * (chunkSizes B S).length
        = callIdx + (chunkSizes B S).length + rem * (chunkSizes B S).length := by
      ring
    have hBx : (List.replicate (rem + 1)
          ((chunkSizes B S).map (fun w => (w, w)))).flatten
        = (chunkSizes B S).map (fun w => (w, w))
          ++ (List.replicate rem ((chunkSizes B S).map (fun w => (w, w)))).flatten := by
      rw [List.replicate_succ, List.flatten_cons]
    have hC : ((List.range (rem + 1)).map (fun k =>
          progressSlice (passCnt - (rem + 1) + k) passCnt totalBlocks 0
            (chunkSizes B S).length)).flatten
        = progressSlice (passCnt - (rem + 1)) passCnt totalBlocks 0
            (chunkSizes B S).length
          ++ ((List.range rem).map (fun k =>
            progressSlice (passCnt - rem + k) passCnt totalBlocks 0
              (chunkSizes B S).length)).flatten := by
      rw [List.range_succ_eq_map, List.map_cons, List.map_map, hfun,
        List.flatten_cons]
      congr 1
    rw [hA, hBx, hC, List.append_assoc, List.append_assoc]

theorem writeLoop_ge1 (dev : Device) (B passIdx passCnt totalBlocks : Nat)
    (hB : 0 < B)
    (hw : ∀ i req, 1 ≤ req → ∃ n, dev.write i req = some n ∧ 1 ≤ n) :
    ∀ fuel bw, dev.size - bw < fuel → ∀ callIdx blockCount wacc pacc,
      ∃ ci ws ps, writeLoop dev B passIdx passCnt totalBlocks fuel
          callIdx bw blockCount wacc pacc = some (true, ci, ws, ps) := by
  intro fuel
  induction fuel with
  | zero => intro bw h; omega
  | succ fuel ih =>
    intro bw hbw callIdx blockCount wacc pacc
    by_cases hlt : bw < dev.size
    · have hreq : 1 ≤ min B (dev.size - bw) := le_min hB (by omega)
      obtain ⟨n, hwn, hn⟩ := hw callIdx (min B (dev.size - bw)) hreq
      simp only [writeLoop, hlt, if_true, hwn]
      exact ih (bw + n) (by omega) _ _ _ _
    · refine ⟨callIdx, wacc, pacc, ?_⟩
      simp [writeLoop, hlt]

theorem runPasses_ok (dev : Device) (B passCnt totalBlocks fuel : Nat)
    (hB : 0 < B) (hseek : ∀ i, dev.seekOk i = true)
    (hw : ∀ i req, 1 ≤ req → ∃ n, dev.write i req = some n ∧ 1 ≤ n)
    (hf : dev.size < fuel) :
    ∀ remaining callIdx wacc pacc,
      ∃ ci ws ps, runPasses dev B passCnt totalBlocks fuel remaining callIdx wacc pacc
        = some (true, 0, ci, ws, ps) := by
  intro remaining
  induction remaining with
  | zero => intro callIdx wacc pacc; exact ⟨callIdx, wacc, pacc, rfl⟩
  | succ rem ih =>
    intro callIdx wacc pacc
    obtain ⟨ci, ws, ps, hwl⟩ := writeLoop_ge1 dev B (passCnt - (rem + 1)) passCnt
      totalBlocks hB hw fuel 0 (by omega) callIdx 0 wacc pacc
    obtain ⟨ci2, ws2, ps2, hrec⟩ := ih ci ws ps
    refine ⟨ci2, ws2, ps2, ?_⟩
    simp [runPasses, hseek, hwl, hrec]

theorem runPasses_zero (dev : Device) (B passCnt totalBlocks fuel : Nat)
    (h0 : dev.size = 0) (hseek : ∀ i, dev.seekOk i = true) (hf : 0 < fuel) :
    ∀ remaining callIdx wacc pacc,
      runPasses dev B passCnt totalBlocks fuel remaining callIdx wacc pacc
        = some (true, 0, callIdx, wacc, pacc) := by
  obtain ⟨f, rfl⟩ : ∃ f, fuel = f + 1 := ⟨fuel - 1, by omega⟩
  intro remaining
  induction remaining with
  | zero => intro callIdx wacc pacc; rfl
  | succ rem ih =>
    intro callIdx wacc pacc
    have hwl : writeLoop dev B (passCnt - (rem + 1)) passCnt totalBlocks (f + 1)
        callIdx 0 0 wacc pacc = some (true, callIdx, wacc, pacc) := by
      simp [writeLoop, h0]
    simp [runPasses, hseek, hwl, ih]

theorem runPasses_closes (dev : Device) (B passCnt totalBlocks fuel : Nat) :
    ∀ remaining callIdx wacc pacc ok c ci ws ps,
      runPasses dev B passCnt totalBlocks fuel remaining callIdx wacc pacc
          = some (ok, c, ci, ws, ps) →
      c = if ok then 0 else 1 := by
  intro remaining
  induction remaining with
  | zero =>
    intro callIdx wacc pacc ok c ci ws ps h
    simp only [runPasses, Option.some.injEq, Prod.mk.injEq] at h
    obtain ⟨hok, hc, -⟩ := h
    subst hok
    subst hc
    rfl
  | succ rem ih =>
    intro callIdx wacc pacc ok c ci ws ps h
    simp only [runPasses] at h
    by_cases hs : dev.seekOk (passCnt - (rem + 1)) = true
    · rw [if_pos hs] at h
      cases hwl : writeLoop dev B (passCnt - (rem + 1)) passCnt totalBlocks fuel
          callIdx 0 0 wacc pacc with
      | none => rw [hwl] at h; exact absurd h (by simp)
      | some tup =>
        obtain ⟨okw, ci', ws', ps'⟩ := tup
        simp only [hwl] at h
        cases okw with
        | true =>
          simp only [if_pos rfl] at h
          exact ih ci' ws' ps' ok c ci ws ps h
        | false =>
          simp only [Bool.false_eq_true, if_false, Option.some.injEq,
            Prod.mk.injEq] at h
          obtain ⟨hok, hc, -⟩ := h
          subst hok
          subst hc
          rfl
    · rw [if_neg hs] at h
      simp only [Option.some.injEq, Prod.mk.injEq] at h
      obtain ⟨hok, hc, -⟩ := h
      subst hok
      subst hc
      rfl

theorem secureEraseWith_closes (B : Nat) (dev : Device) (p : WipePattern)
    (rs : Nat → Nat) (st fuel : Nat) (r : RunResult)
    (h : secureEraseWith B dev p rs st fuel = some r) :
    r.opened = (if dev.openOk = true then 1 else 0) ∧ r.closes = r.opened := by
  cases hop : dev.openOk with
  | false =>
    simp only [secureEraseWith, hop, eq_self_iff_true, if_true,
      Option.some.injEq] at h
    subst h
    simp
  | true =>
    cases hsz : dev.sizeOk with
    | false =>
      simp only [secureEraseWith, hop, hsz, Bool.true_eq_false, if_false,
        eq_self_iff_true, if_true, Option.some.injEq] at h
      subst h
      simp
    | true =>
      simp only [secureEraseWith, hop, hsz, Bool.true_eq_false, if_false] at h
      cases hrp : runPasses dev B ((generatePatterns p rs st).fst.length)
          ((dev.size + B - 1) / B) fuel
          ((generatePatterns p rs st).fst.length) 0 [] [] with
      | none => rw [hrp] at h; exact absurd h (by simp)
      | some tup =>
        obtain ⟨ok, c, ci, ws, ps⟩ := tup
        have hc := runPasses_closes dev B ((generatePatterns p rs st).fst.length)
          ((dev.size + B - 1) / B) fuel ((generatePatterns p rs st).fst.length)
          0 [] [] ok c ci ws ps hrp
        simp only [hrp] at h
        cases ok with
        | true =>
          simp only [eq_self_iff_true, if_true, Option.some.injEq] at h
          subst h
          simp at hc
          simp [hc]
        | false =>
          simp only [Bool.false_eq_true, if_false, Option.some.injEq] at h
          subst h
          simp at hc
          simp [hc]

theorem secureEraseWith_full (B S : Nat) (p : WipePattern) (rs : Nat → Nat)
    (st fuel : Nat) (hB : 0 < B) (hf : S < fuel) :
    secureEraseWith B (fullDev S) p rs st fuel
      = some { success := true, opened := 1, closes := 1,
               writes := (List.replicate (passCount p)
                 ((chunkSizes B S).map (fun w => (w, w)))).flatten,
               progress := ((List.range (passCount p)).map (fun k =>
                 progressSlice k (passCount p) ((S + B - 1) / B) 0
                   (chunkSizes B S).length)).flatten } := by
  have hrp := runPasses_allFull (fullDev S) S B
    ((generatePatterns p rs st).fst.length) ((S + B - 1) / B) fuel hB rfl
    (fun _ => rfl) (fun _ _ => rfl) hf ((generatePatterns p rs st).fst.length)
    (le_refl _) 0 [] []
  rw [gen_length p rs st] at hrp
  simp only [Nat.sub_self, Nat.zero_add, List.nil_append] at hrp
  have h1 : (fullDev S).openOk = true := rfl
  have h2 : (fullDev S).sizeOk = true := rfl
  have h3 : (fullDev S).size = S := rfl
  simp [secureEraseWith, h1, h2, h3, gen_length, hrp]

/- ## Claim theorems -/

/-- C4: every scheme generates a positive number of pass buffers, matching the
documented pass counts (Zeros 1, Ones 1, Random 1, DoD3Pass 3, Gutmann35 9),
and the Gutmann sequence is four random buffers followed by the five fixed
patterns 0x55, 0xAA, 0x92, 0x49, 0x24 in that order. -/
theorem generatePatterns_pass_counts (rs : Nat → Nat) (st : Nat) :
    (∀ p, 0 < (generatePatterns p rs st).fst.length) ∧
    (generatePatterns .ZEROS rs st).fst.length = 1 ∧
    (generatePatterns .ONES rs st).fst.length = 1 ∧
    (generatePatterns .RANDOM rs st).fst.length = 1 ∧
    (generatePatterns .DOD_3PASS rs st).fst.length = 3 ∧
    (generatePatterns .GUTMANN_35 rs st).fst.length = 9 ∧
    (generatePatterns .GUTMANN_35 rs st).fst.take 4
      = [randomBuffer rs st, randomBuffer rs (st + BLOCK_SIZE),
         randomBuffer rs (st + 2 * BLOCK_SIZE), randomBuffer rs (st + 3 * BLOCK_SIZE)] ∧
    (generatePatterns .GUTMANN_35 rs st).fst.drop 4
      = [constBuffer 0x55, constBuffer 0xAA, constBuffer 0x92,
         constBuffer 0x49, constBuffer 0x24] := by
  refine ⟨fun p => ?_, rfl, rfl, rfl, rfl, rfl, rfl, rfl⟩
  cases p <;> simp [generatePatterns]

/-- C5: every fixed-pattern pass buffer (Zeros, Ones, the first two DoD
passes, and the five fixed Gutmann passes) is a constant buffer of the
documented byte, and every constant buffer has length 1 MiB with every byte
equal to its fill constant. -/
theorem generatePatterns_fixed_bytes (rs : Nat → Nat) (st i : Nat) :
    (generatePatterns .ZEROS rs st).fst = [constBuffer 0x00] ∧
    (generatePatterns .ONES rs st).fst = [constBuffer 0xFF] ∧
    (generatePatterns .DOD_3PASS rs st).fst.take 2
      = [constBuffer 0x00, constBuffer 0xFF] ∧
    (generatePatterns .GUTMANN_35 rs st).fst.drop 4
      = [constBuffer 0x55, constBuffer 0xAA, constBuffer 0x92,
         constBuffer 0x49, constBuffer 0x24] ∧
    (∀ c, (constBuffer c).len = 1024 * 1024 ∧ (constBuffer c).data i = c) :=
  ⟨rfl, rfl, rfl, rfl, fun _ => ⟨rfl, rfl⟩⟩

/-- C8 counterexample: `generatePatterns` is not a pure function of the
scheme tag.  With the RNG stream `rsDemo`, generating a Random scheme twice
in a row (threading the advanced RNG state, as the mutable `mt19937` member
does) yields buffers whose first bytes are 0 and then 1, so the two outputs
are not identical. -/
theorem generatePatterns_not_pure :
    (((generatePatterns .RANDOM rsDemo
          ((generatePatterns .RANDOM rsDemo 0).snd)).fst.headD
        (constBuffer 0)).data 0
      == ((generatePatterns .RANDOM rsDemo 0).fst.headD (constBuffer 0)).data 0)
      = false := by
  decide

/-- C8 amended: `generatePatterns` never fails and always returns a
non-empty sequence; for the schemes without random passes (Zeros, Ones) it is
independent of the RNG stream and state, but every call advances the RNG
state by `BLOCK_SIZE` draws per random pass, so schemes with random passes
depend on the mutable RNG state. -/
theorem generatePatterns_state_advance (p : WipePattern) (rs rs' : Nat → Nat)
    (st st' : Nat) (hfix : p = .ZEROS ∨ p = .ONES) :
    0 < (generatePatterns p rs st).fst.length ∧
    (generatePatterns p rs st).fst = (generatePatterns p rs' st').fst ∧
    (∀ q rs2 st2, (generatePatterns q rs2 st2).snd
      = st2 + randomDraws q * BLOCK_SIZE) := by
  refine ⟨?_, ?_, fun q rs2 st2 => ?_⟩
  · cases p <;> simp [generatePatterns]
  · rcases hfix with h | h <;> subst h <;> rfl
  · cases q <;> simp [generatePatterns, randomDraws]

/-- C8 witness: the amended theorem instantiated at the Zeros scheme with two
different RNG streams and states. -/
theorem generatePatterns_state_advance_witness :
    0 < (generatePatterns .ZEROS rsZ 0).fst.length ∧
    (generatePatterns .ZEROS rsZ 0).fst = (generatePatterns .ZEROS rsDemo 5).fst ∧
    (∀ q rs2 st2, (generatePatterns q rs2 st2).snd
      = st2 + randomDraws q * BLOCK_SIZE) :=
  generatePatterns_state_advance .ZEROS rsZ rsDemo 0 5 (Or.inl rfl)

/-- C3 counterexample: the wipe engine itself performs no mounted-device
check.  Invoking `secureErase` directly on a healthy but mounted device opens
a write handle (`opened = 1`), writes the whole device, and reports success —
so the refusal is not performed by the engine and is bypassed by calling the
engine directly. -/
theorem engine_opens_mounted_device :
    mountedDevice.mounted = true ∧
    secureErase mountedDevice .ZEROS rsZ 0 5
      = some { success := true, opened := 1, closes := 1,
               writes := [(1048576, 1048576)], progress := [] } := by
  exact ⟨rfl, by decide⟩

/-- C3 amended: the mounted-device refusal lives in `main`, not in the
engine: for every mounted descriptor the CLI driver returns exit code 1 and
never invokes the engine (so no write handle is opened on that path). -/
theorem mainWipe_rejects_mounted (dev : Device) (p : WipePattern)
    (confirmed : Bool) (rs : Nat → Nat) (st fuel : Nat)
    (hm : dev.mounted = true) :
    mainWipe dev p confirmed rs st fuel = some (1, none) := by
  simp [mainWipe, hm]

/-- C3 witness: the amended theorem at the concrete mounted device. -/
theorem mainWipe_rejects_mounted_witness :
    mountedDevice.mounted = true ∧
    mainWipe mountedDevice .ZEROS true rsZ 0 5 = some (1, none) :=
  ⟨rfl, mainWipe_rejects_mounted mountedDevice .ZEROS true rsZ 0 5 rfl⟩

/-- C2 counterexample: a device that reports capacity 0 is wiped
"successfully": the engine performs zero write calls and returns success —
there is no `EmptyDeviceError` check in the code. -/
theorem zeroSize_run_reports_success :
    (fullDev 0).size = 0 ∧
    secureErase (fullDev 0) .ZEROS rsZ 0 1
      = some { success := true, opened := 1, closes := 1,
               writes := [], progress := [] } := by
  exact ⟨rfl, by decide⟩

/-- C2 amended: for every device whose reported capacity is 0 (and whose
open, size query and seeks succeed), the run performs zero writes and reports
success, closing the handle once; the engine never fails on empty devices. -/
theorem zeroSize_succeeds (dev : Device) (p : WipePattern) (rs : Nat → Nat)
    (st fuel : Nat) (h0 : dev.size = 0) (ho : dev.openOk = true)
    (hsz : dev.sizeOk = true) (hseek : ∀ i, dev.seekOk i = true)
    (hf : 0 < fuel) :
    ∃ r, secureErase dev p rs st fuel = some r ∧ r.success = true ∧
      r.writes = [] ∧ r.closes = 1 := by
  have hrp := runPasses_zero dev BLOCK_SIZE
    ((generatePatterns p rs st).fst.length)
    ((dev.size + BLOCK_SIZE - 1) / BLOCK_SIZE) fuel h0 hseek hf
    ((generatePatterns p rs st).fst.length) 0 [] []
  refine ⟨⟨true, 1, 1, [], []⟩, ?_, rfl, rfl, rfl⟩
  simp [secureErase, secureEraseWith, ho, hsz, hrp]

/-- C2 witness: the amended theorem at a concrete zero-capacity device. -/
theorem zeroSize_succeeds_witness :
    (fullDev 0).size = 0 ∧
    ∃ r, secureErase (fullDev 0) .ZEROS rsZ 0 1 = some r ∧ r.success = true ∧
      r.writes = [] ∧ r.closes = 1 :=
  ⟨rfl, zeroSize_succeeds (fullDev 0) .ZEROS rsZ 0 1 rfl rfl rfl
    (fun _ => rfl) (by decide)⟩

/-- C1 counterexample: a short write is not fatal.  On `shortDevice` the
first write call requests 1048576 bytes but reports only 524288; the engine
does not abort: it continues from the shifted offset with two further calls
and reports success. -/
theorem shortWrite_run_completes :
    secureErase shortDevice .ZEROS rsZ 0 10
      = some { success := true, opened := 1, closes := 1,
               writes := [(1048576, 524288), (1048576, 1048576),
                 (524288, 524288)],
               progress := [] } := by
  decide

/-- C1 amended: a write call that reports fewer bytes than requested is
treated like any successful write: the engine adds the reported count to
`bytesWritten` and keeps looping.  Whenever every write call succeeds and
reports at least one byte (shorts allowed), the run completes with success
and closes the handle once; only a failing write call aborts a run. -/
theorem shortWrite_continues (dev : Device) (p : WipePattern) (rs : Nat → Nat)
    (st fuel : Nat) (ho : dev.openOk = true) (hsz : dev.sizeOk = true)
    (hseek : ∀ i, dev.seekOk i = true)
    (hw : ∀ i req, 1 ≤ req → ∃ n, dev.write i req = some n ∧ 1 ≤ n)
    (hf : dev.size < fuel) :
    ∃ r, secureErase dev p rs st fuel = some r ∧ r.success = true ∧
      r.closes = 1 := by
  obtain ⟨ci, ws, ps, hrp⟩ := runPasses_ok dev BLOCK_SIZE
    ((generatePatterns p rs st).fst.length)
    ((dev.size + BLOCK_SIZE - 1) / BLOCK_SIZE) fuel (by decide) hseek hw hf
    ((generatePatterns p rs st).fst.length) 0 [] []
  refine ⟨⟨true, 1, 1, ws, ps⟩, ?_, rfl, rfl⟩
  simp [secureErase, secureEraseWith, ho, hsz, hrp]

/-- C1 witness: the amended theorem at the concrete short-writing device. -/
theorem shortWrite_continues_witness :
    shortDevice.openOk = true ∧
    ∃ r, secureErase shortDevice .ZEROS rsZ 0 3000000 = some r ∧
      r.success = true ∧ r.closes = 1 :=
  ⟨rfl, shortWrite_continues shortDevice .ZEROS rsZ 0 3000000 rfl rfl
    (fun _ => rfl)
    (fun i req hreq => ⟨(if i = 0 then (req + 1) / 2 else req), rfl,
      by split <;> omega⟩)
    (by decide)⟩

/-- C9: on every terminating run in which the device handle was successfully
opened, the handle is opened exactly once and closed exactly once, whichever
exit path the run took (size-query failure, seek failure, write failure, or
normal completion). -/
theorem handle_closed_exactly_once (dev : Device) (p : WipePattern)
    (rs : Nat → Nat) (st fuel : Nat) (r : RunResult)
    (h : secureErase dev p rs st fuel = some r) (ho : dev.openOk = true) :
    r.opened = 1 ∧ r.closes = 1 := by
  obtain ⟨h1, h2⟩ := secureEraseWith_closes BLOCK_SIZE dev p rs st fuel r h
  rw [ho] at h1
  simp at h1
  exact ⟨h1, h2.trans h1⟩

/-- C9 witness: the theorem at a concrete clean one-block run. -/
theorem handle_closed_exactly_once_witness :
    (fullDev BLOCK_SIZE).openOk = true ∧ r0.opened = 1 ∧ r0.closes = 1 :=
  ⟨rfl, handle_closed_exactly_once (fullDev BLOCK_SIZE) .ZEROS rsZ 0 5 r0
    (by decide) rfl⟩

/-- C10 counterexample: on the Windows path, `isMounted` is assigned
unconditionally before the push, even when the geometry query fails: the
scanned entry for `w0` (open succeeds, geometry fails) carries
`mounted = some true`, not an unassigned field. -/
theorem win_mounted_always_assigned :
    w0.geometryOk = false ∧
    listDevicesWin [w0]
      = [{ size := none, removable := some false, mounted := some true }] ∧
    ((listDevicesWin [w0]).headD
        { size := none, removable := none, mounted := none }).mounted.isSome
      = true := by
  decide

/-- C10 amended: when the capacity query fails during enumeration (the
read-only open or the `BLKGETSIZE64` ioctl on Linux; the geometry
`DeviceIoControl` on Windows), the device is still appended to the list with
its size field never assigned; on both platforms the removable and mounted
fields of an appended entry are always assigned (on Windows the open must
have succeeded for the entry to be appended at all). -/
theorem listDevices_keeps_unqueried_devices (es : List LinuxEntry)
    (e : LinuxEntry) (ds : List WinDrive) (d : WinDrive)
    (heL : e ∈ es) (hdot : e.dotName = false) (hblk : e.isBlk = true)
    (hfail : e.openOk = false ∨ e.ioctlOk = false)
    (hdW : d ∈ ds)
    (htype : d.driveType = DriveType.removable ∨ d.driveType = DriveType.fixedDisk)
    (hopen : d.openOk = true) (hgeo : d.geometryOk = false) :
    ({ size := none, removable := some (e.removableVal = 1 : Bool),
       mounted := some e.mounted } : DeviceScan) ∈ listDevicesLinux es ∧
    ({ size := none, removable := some (d.driveType = DriveType.removable : Bool),
       mounted := some d.mountedBit } : DeviceScan) ∈ listDevicesWin ds := by
  constructor
  · apply List.mem_filterMap.mpr
    refine ⟨e, heL, ?_⟩
    dsimp only
    rw [if_neg (show ¬ e.dotName = true from by simp [hdot]), if_pos hblk,
      if_neg (show ¬ (e.openOk = true ∧ e.ioctlOk = true) from by
        rcases hfail with hf | hf <;> simp [hf])]
  · apply List.mem_filterMap.mpr
    refine ⟨d, hdW, ?_⟩
    dsimp only
    rw [if_pos htype, if_pos hopen,
      if_neg (show ¬ d.geometryOk = true from by simp [hgeo])]

/-- C10 witness: the amended theorem at the concrete failing-query device
oracles `e0` (Linux, open fails) and `w0` (Windows, geometry fails). -/
theorem listDevices_keeps_unqueried_devices_witness :
    ({ size := none, removable := some (e0.removableVal = 1 : Bool),
       mounted := some e0.mounted } : DeviceScan) ∈ listDevicesLinux [e0] ∧
    ({ size := none, removable := some (w0.driveType = DriveType.removable : Bool),
       mounted := some w0.mountedBit } : DeviceScan) ∈ listDevicesWin [w0] :=
  listDevices_keeps_unqueried_devices [e0] e0 [w0] w0 (by decide) rfl rfl
    (Or.inl rfl) (by decide) (Or.inr rfl) rfl rfl

/-- C6: on a device of size `S > 0` with block size `B > 0` where every write
call transfers all requested bytes, a complete run issues per pass exactly
the write calls `chunkSizes B S` (each call transferring its requested size),
and these sizes satisfy: there are `ceil(S/B) = (S + B - 1) / B` of them,
they sum to `S`, every call except the last requests exactly `B` bytes, the
last call requests `S mod B` bytes (or `B` when `B` divides `S`), and no
prefix of calls ever exceeds offset `S`. -/
theorem engine_write_call_sizes (S B : Nat) (p : WipePattern) (rs : Nat → Nat)
    (st fuel : Nat) (hS : 0 < S) (hB : 0 < B) (hf : S < fuel) :
    (∃ r, secureEraseWith B (fullDev S) p rs st fuel = some r ∧
        r.success = true ∧
        r.writes = (List.replicate (passCount p)
          ((chunkSizes B S).map (fun w => (w, w)))).flatten) ∧
    (chunkSizes B S).length = (S + B - 1) / B ∧
    (chunkSizes B S).sum = S ∧
    (chunkSizes B S).dropLast = List.replicate ((chunkSizes B S).length - 1) B ∧
    (chunkSizes B S).getLast? = some (if S % B = 0 then B else S % B) ∧
    (∀ k, ((chunkSizes B S).take k).sum ≤ S) :=
  ⟨⟨_, secureEraseWith_full B S p rs st fuel hB hf, rfl, rfl⟩,
    chunkSizes_length B hB S, chunkSizes_sum B hB S,
    chunkSizes_dropLast B hB S, chunkSizes_getLast B hB S hS,
    chunkSizes_take_sum B hB S⟩

/-- C6 witness: the theorem at the 2.5 MiB device with 1 MiB blocks — in
particular the per-pass call sizes are [1 MiB, 1 MiB, 0.5 MiB]. -/
theorem engine_write_call_sizes_witness :
    0 < 2621440 ∧ 0 < 1048576 ∧ 2621440 < 2621441 ∧
    (chunkSizes 1048576 2621440).sum = 2621440 ∧
    chunkSizes 1048576 2621440 = [1048576, 1048576, 524288] :=
  ⟨by decide, by decide, by decide,
    (engine_write_call_sizes 2621440 1048576 .ONES rsZ 0 2621441
      (by decide) (by decide) (by decide)).2.2.1,
    by decide⟩

/-- C7 counterexample: for a 2.5 MiB device with 1 MiB blocks and scheme
Ones, the session completes but the progress callback is never invoked (it
only fires when the in-pass block counter is a multiple of 100, and the run
has 3 blocks), so the reported percent never reaches 100 — no percent is
reported at all. -/
theorem progress_never_reported_small_device :
    secureErase (fullDev 2621440) .ONES rsZ 0 10
      = some { success := true, opened := 1, closes := 1,
               writes := [(1048576, 1048576), (1048576, 1048576),
                 (524288, 524288)],
               progress := [] } := by
  decide

/-- C7 amended: during a complete run the progress callback fires exactly
when the in-pass block counter is a multiple of 100 (`progressSlice`), with
percent `(passIdx * totalBlocks + blockCount) / (totalPasses * totalBlocks)
* 100`; percent reaches exactly 100 at session end only when the block count
of the final pass is a multiple of 100: a 100 MiB device reports exactly
[100], while the 2.5 MiB device of the spec scenario reports nothing. -/
theorem progress_cadence_and_formula (S B : Nat) (p : WipePattern)
    (rs : Nat → Nat) (st fuel : Nat) (hB : 0 < B) (hf : S < fuel) :
    (∃ r, secureEraseWith B (fullDev S) p rs st fuel = some r ∧
        r.progress = ((List.range (passCount p)).map (fun k =>
          progressSlice k (passCount p) ((S + B - 1) / B) 0
            (chunkSizes B S).length)).flatten) ∧
    (secureErase (fullDev (100 * BLOCK_SIZE)) .ONES rsZ 0
        (100 * BLOCK_SIZE + 1)).map RunResult.progress = some [(100 : ℚ)] ∧
    (secureErase (fullDev 2621440) .ONES rsZ 0 10).map RunResult.progress
      = some [] := by
  refine ⟨⟨_, secureEraseWith_full B S p rs st fuel hB hf, rfl⟩, ?_, ?_⟩
  · show (secureEraseWith BLOCK_SIZE (fullDev (100 * BLOCK_SIZE)) .ONES rsZ 0
        (100 * BLOCK_SIZE + 1)).map RunResult.progress = some [(100 : ℚ)]
    rw [secureEraseWith_full BLOCK_SIZE (100 * BLOCK_SIZE) .ONES rsZ 0
      (100 * BLOCK_SIZE + 1) (by decide) (by omega)]
    have htb : (100 * BLOCK_SIZE + BLOCK_SIZE - 1) / BLOCK_SIZE = 100 := by
      decide
    have hlen : (chunkSizes BLOCK_SIZE (100 * BLOCK_SIZE)).length = 100 := by
      rw [chunkSizes_length BLOCK_SIZE (by decide)]
      exact htb
    show some (((List.range (passCount .ONES)).map (fun k =>
        progressSlice k (passCount .ONES)
          ((100 * BLOCK_SIZE + BLOCK_SIZE - 1) / BLOCK_SIZE) 0
          (chunkSizes BLOCK_SIZE (100 * BLOCK_SIZE)).length)).flatten)
      = some [(100 : ℚ)]
    rw [htb, hlen]
    show some (((List.range 1).map (fun k =>
        progressSlice k 1 100 0 100)).flatten) = some [(100 : ℚ)]
    rw [show List.range 1 = [0] from by decide, List.map_cons, List.map_nil,
      List.flatten_cons, List.flatten_nil, List.append_nil]
    have hsp : progressSlice 0 1 100 0 100
        = progressSlice 0 1 100 0 99 ++ progressSlice 0 1 100 99 1 := by
      have h := progressSlice_split 0 1 100 99 0 1
      norm_num at h
      exact h
    rw [hsp, progressSlice_nil 0 1 100 99 0 (fun j h1 h2 => by omega),
      List.nil_append]
    show some ((if (99 + 1) % 100 = 0 then
        [progressValue 0 1 100 (99 + 1)] else [])
      ++ progressSlice 0 1 100 (99 + 1) 0) = some [(100 : ℚ)]
    norm_num [progressValue]
    rfl
  · decide

/-- C7 witness: the amended theorem instantiated at the 2.5 MiB device. -/
theorem progress_cadence_and_formula_witness :
    0 < 1048576 ∧ 2621440 < 2621441 ∧
    (secureErase (fullDev 2621440) .ONES rsZ 0 10).map RunResult.progress
      = some [] :=
  ⟨by decide, by decide,
    (progress_cadence_and_formula 2621440 1048576 .ONES rsZ 0 2621441
      (by decide) (by decide)).2.2⟩

end MemErase
